import Mathlib

/-!
Verification of the text-extraction and normalization pipeline of
`src/word_cloud.py` (word-cloud generator).

Strings are modelled as lists of characters (`Str`).  Python's
whitespace-splitting `str.split()` is modelled by `tokenize`, Python's
`' '.join` by `joinSpace`, and the program's functions
(`filter_stopwords`, `read_csv`, `get_plot_download_link`,
`get_df_download_link`, the module-level dispatch and empty-text guard)
are translated one by one below.
-/

/-- Strings as character lists. -/
abbrev Str := List Char

/-- Whitespace test used for Python's `str.split()` / `str.strip()`. -/
def isWS (c : Char) : Bool := c.isWhitespace

/-- Accumulator-based whitespace tokenizer: `tokenizeAux s acc` scans `s`,
`acc` holding the (reversed) characters of the token currently being read. -/
def tokenizeAux : Str → Str → List Str
  | [], acc => if acc = [] then [] else [acc.reverse]
  | c :: cs, acc =>
    if isWS c then
      if acc = [] then tokenizeAux cs [] else acc.reverse :: tokenizeAux cs []
    else tokenizeAux cs (c :: acc)

/-- Python `text.split()`: split on runs of whitespace, dropping empty tokens. -/
def tokenize (s : Str) : List Str := tokenizeAux s []

/-- Python `' '.join(tokens)`. -/
def joinSpace : List Str → Str
  | [] => []
  | [t] => t
  | t :: ts => t ++ ' ' :: joinSpace ts

/-- Lowercasing of a string, modelling Python `str.lower()`. -/
def lowerStr (s : Str) : Str := s.map Char.toLower

/-- Modelled from the wordcloud library: the bundled default `STOPWORDS`
set of lowercase English stopwords (external to this repository; the
theorems below do not depend on its exact contents). -/
def STOPWORDS : List Str :=
  ["a", "about", "above", "after", "again", "against", "all", "am", "an",
   "and", "any", "are", "as", "at", "be", "because", "been", "before",
   "being", "below", "between", "both", "but", "by", "can", "cannot",
   "could", "did", "do", "does", "doing", "down", "during", "each", "few",
   "for", "from", "further", "had", "has", "have", "having", "he", "her",
   "here", "hers", "herself", "him", "himself", "his", "how", "i", "if",
   "in", "into", "is", "it", "its", "itself", "just", "me", "more", "most",
   "my", "myself", "no", "nor", "not", "of", "off", "on", "once", "only",
   "or", "other", "ought", "our", "ours", "ourselves", "out", "over",
   "own", "same", "she", "should", "so", "some", "such", "than", "that",
   "the", "their", "theirs", "them", "themselves", "then", "there",
   "these", "they", "this", "those", "through", "to", "too", "under",
   "until", "up", "very", "was", "we", "were", "what", "when", "where",
   "which", "while", "who", "whom", "why", "with", "would", "you", "your",
   "yours", "yourself", "yourselves"].map String.data

/-- The active stopword collection: `STOPWORDS.union(set(additional_stopwords))`,
modelled as list membership in the concatenation. -/
def allstopwords (additional : List Str) : List Str := STOPWORDS ++ additional

/-- The token-retention test of `filter_stopwords`:
`word.lower() not in allstopwords`. -/
def keepWord (additional : List Str) (w : Str) : Bool :=
  decide (lowerStr w ∉ allstopwords additional)

/-- Translation of `filter_stopwords(text, additional_stopwords)`
(src/word_cloud.py lines 40-44): split on whitespace, drop the words whose
lowercased form is in `STOPWORDS ∪ additional`, rejoin with single spaces. -/
def filter_stopwords (text : Str) (additional : List Str) : Str :=
  joinSpace ((tokenize text).filter (keepWord additional))

/-- Every token produced by `tokenizeAux` is nonempty and whitespace-free,
provided the accumulator holds no whitespace. -/
theorem tokenizeAux_tokens (s : Str) :
    ∀ acc : Str, (∀ c ∈ acc, isWS c = false) →
      ∀ t ∈ tokenizeAux s acc, t ≠ [] ∧ ∀ c ∈ t, isWS c = false := by
  induction s with
  | nil =>
    intro acc hacc t ht
    simp only [tokenizeAux] at ht
    by_cases h : acc = []
    · simp [h] at ht
    · simp [h] at ht
      subst ht
      refine ⟨by simpa using h, ?_⟩
      intro c hc
      exact hacc c (List.mem_reverse.mp hc)
  | cons c cs ih =>
    intro acc hacc t ht
    simp only [tokenizeAux] at ht
    by_cases hws : isWS c
    · simp only [hws, if_true] at ht
      by_cases h : acc = []
      · simp only [h, if_true] at ht
        exact ih [] (by simp) t ht
      · simp only [h, if_false] at ht
        rcases List.mem_cons.mp ht with h1 | h1
        · subst h1
          refine ⟨by simpa using h, ?_⟩
          intro d hd
          exact hacc d (List.mem_reverse.mp hd)
        · exact ih [] (by simp) t h1
    · simp only [hws, if_false] at ht
      refine ih (c :: acc) ?_ t ht
      intro d hd
      rcases List.mem_cons.mp hd with h1 | h1
      · subst h1; simpa using hws
      · exact hacc d h1

/-- Tokens of `tokenize` are nonempty and whitespace-free. -/
theorem tokenize_tokens (s : Str) :
    ∀ t ∈ tokenize s, t ≠ [] ∧ ∀ c ∈ t, isWS c = false :=
  tokenizeAux_tokens s [] (by simp)

/-- Scanning a whitespace-free block just moves it into the accumulator. -/
theorem tokenizeAux_block (t : Str) (ht : ∀ c ∈ t, isWS c = false) :
    ∀ rest acc, tokenizeAux (t ++ rest) acc = tokenizeAux rest (t.reverse ++ acc) := by
  induction t with
  | nil => intro rest acc; simp
  | cons c cs ih =>
    intro rest acc
    have hc : isWS c = false := ht c (List.mem_cons_self c cs)
    have hcs : ∀ d ∈ cs, isWS d = false := fun d hd => ht d (List.mem_cons_of_mem c hd)
    simp only [List.cons_append, tokenizeAux, hc, if_false, Bool.false_eq_true,
      List.append_eq]
    rw [ih hcs rest (c :: acc)]
    simp

/-- Retokenizing a space-join of nonempty whitespace-free tokens recovers
exactly those tokens. -/
theorem tokenize_joinSpace (L : List Str)
    (hL : ∀ t ∈ L, t ≠ [] ∧ ∀ c ∈ t, isWS c = false) :
    tokenize (joinSpace L) = L := by
  induction L with
  | nil => rfl
  | cons t L' ih =>
    have ht := hL t (List.mem_cons_self t L')
    have htrev : t.reverse ≠ [] := by simpa using ht.1
    cases L' with
    | nil =>
      show tokenizeAux (joinSpace [t]) [] = [t]
      have : joinSpace [t] = t ++ [] := by simp [joinSpace]
      rw [this, tokenizeAux_block t ht.2]
      simp [tokenizeAux, htrev]
    | cons u L'' =>
      have hjoin : joinSpace (t :: u :: L'') = t ++ (' ' :: joinSpace (u :: L'')) := rfl
      show tokenizeAux (joinSpace (t :: u :: L'')) [] = t :: u :: L''
      rw [hjoin, tokenizeAux_block t ht.2]
      have hsp : isWS ' ' = true := by decide
      simp only [List.append_nil, tokenizeAux, hsp, if_true, htrev, if_false,
        List.reverse_reverse]
      have := ih (fun x hx => hL x (List.mem_cons_of_mem t hx))
      rw [show tokenizeAux (joinSpace (u :: L'')) [] = tokenize (joinSpace (u :: L'')) from rfl,
        this]

/-- Retokenizing the output of `filter_stopwords` gives exactly the filtered
token list of the input. -/
theorem tokenize_filter_stopwords (T : Str) (S : List Str) :
    tokenize (filter_stopwords T S) = (tokenize T).filter (keepWord S) := by
  apply tokenize_joinSpace
  intro t htmem
  exact tokenize_tokens T t (List.mem_of_mem_filter htmem)

/-- C1: `filter_stopwords` returns exactly the whitespace-split tokens of the
input whose lowercased form is not in the active stopword set
(`STOPWORDS ∪ additional`), joined by single spaces, in their original order
and casing (its token list is the `List.filter` of the input's token list);
its token count never exceeds the input's token count; no retained token's
lowercase form lies in the active set; empty input yields the empty string. -/
theorem filter_stopwords_spec (T : Str) (S : List Str) :
    filter_stopwords T S = joinSpace ((tokenize T).filter (keepWord S)) ∧
    tokenize (filter_stopwords T S) = (tokenize T).filter (keepWord S) ∧
    (tokenize (filter_stopwords T S)).length ≤ (tokenize T).length ∧
    (∀ w ∈ tokenize (filter_stopwords T S), lowerStr w ∉ allstopwords S) ∧
    filter_stopwords [] S = [] := by
  have hre := tokenize_filter_stopwords T S
  refine ⟨rfl, hre, ?_, ?_, rfl⟩
  · rw [hre]; exact List.length_filter_le _ _
  · intro w hw
    rw [hre] at hw
    have := List.of_mem_filter hw
    simpa [keepWord] using this

/-- C5: stopword filtering is idempotent. -/
theorem filter_stopwords_idem (T : Str) (S : List Str) :
    filter_stopwords (filter_stopwords T S) S = filter_stopwords T S := by
  show joinSpace ((tokenize (filter_stopwords T S)).filter (keepWord S))
      = filter_stopwords T S
  rw [tokenize_filter_stopwords T S, List.filter_filter]
  show joinSpace ((tokenize T).filter _) = joinSpace ((tokenize T).filter _)
  congr 1
  apply List.filter_congr
  intro x _
  cases keepWord S x <;> simp

/-- Python `s.split(",")`: split on every comma, keeping empty fields
(`"".split(",") == [""]`). -/
def splitComma : Str → List Str
  | [] => [[]]
  | c :: cs =>
    if c = ',' then [] :: splitComma cs
    else
      match splitComma cs with
      | [] => [[c]]
      | f :: rest => (c :: f) :: rest

/-- Python `str.strip()`: drop leading and trailing whitespace. -/
def strip (s : Str) : Str := (s.dropWhile isWS).rdropWhile isWS

/-- Translation of line 84 of src/word_cloud.py:
`[word.strip() for word in custom_stopwords.split(",")] if custom_stopwords else []`. -/
def additional_stopwords (custom : Str) : List Str :=
  if custom = [] then [] else (splitComma custom).map strip

/-- The head of `dropWhile isWS` is never whitespace. -/
theorem dropWhile_isWS_head (x : Str) :
    ∀ {a : Char} {rest : Str}, x.dropWhile isWS = a :: rest → isWS a = false := by
  induction x with
  | nil => intro a rest h; simp at h
  | cons c cs ih =>
    intro a rest h
    by_cases hc : isWS c
    · rw [List.dropWhile_cons_of_pos hc] at h
      exact ih h
    · rw [List.dropWhile_cons_of_neg hc] at h
      cases h
      simpa using hc

/-- Python `strip` is idempotent. -/
theorem strip_idem (x : Str) : strip (strip x) = strip x := by
  unfold strip
  have hpre := List.rdropWhile_prefix isWS (x.dropWhile isWS)
  obtain ⟨t, ht⟩ := hpre
  cases hz : (x.dropWhile isWS).rdropWhile isWS with
  | nil => simp
  | cons a zt =>
    have hy : x.dropWhile isWS = a :: (zt ++ t) := by
      rw [hz] at ht
      rw [← ht, List.cons_append]
    have ha : isWS a = false := dropWhile_isWS_head x hy
    have h1 : List.dropWhile isWS (a :: zt) = a :: zt := by
      simp [List.dropWhile_cons, ha]
    rw [h1, ← hz, List.rdropWhile_idempotent]

/-- Characterization of an all-whitespace (or empty) string via `strip`. -/
theorem strip_eq_nil_iff (s : Str) : strip s = [] ↔ ∀ c ∈ s, isWS c = true := by
  unfold strip
  rw [List.rdropWhile_eq_nil_iff]
  constructor
  · intro h c hc
    rw [← List.takeWhile_append_dropWhile (p := isWS) (l := s)] at hc
    rcases List.mem_append.mp hc with h1 | h1
    · exact List.mem_takeWhile_imp h1
    · exact h c h1
  · intro h c hc
    exact h c (List.dropWhile_sublist isWS |>.mem hc)

/-- C4 counterexample: with custom-stopword text `"A,,b"`, the parsed custom
token list is `["A", "", "b"]`: it contains the empty string, and it contains
the non-lowercase token `"A"`. -/
theorem additional_stopwords_cex :
    additional_stopwords ("A,,b".data) = ["A".data, "".data, "b".data] ∧
    ([] : Str) ∈ additional_stopwords ("A,,b".data) ∧
    "A".data ∈ additional_stopwords ("A,,b".data) ∧
    lowerStr ("A".data) ≠ "A".data := by
  refine ⟨by decide, by decide, by decide, by decide⟩

/-- C4 amended: the active stopword collection is the union (membership-wise)
of the library default set and the parsed custom tokens, and every parsed
custom token is already trimmed of surrounding whitespace (`strip` fixes it);
custom tokens are not lowercased and may include empty strings. -/
theorem active_stopword_set_amended (custom : Str) :
    (∀ t ∈ additional_stopwords custom, strip t = t) ∧
    (∀ w : Str, w ∈ allstopwords (additional_stopwords custom) ↔
      w ∈ STOPWORDS ∨ w ∈ additional_stopwords custom) := by
  constructor
  · intro t ht
    unfold additional_stopwords at ht
    by_cases h : custom = []
    · simp [h] at ht
    · simp only [h, if_false] at ht
      obtain ⟨u, _, hu⟩ := List.mem_map.mp ht
      rw [← hu]
      exact strip_idem u
  · intro w
    exact List.mem_append

/-- Outcome of the module-level guard after extraction (lines 101-117):
either the visible empty-content error, or the pipeline proceeds and hands
the filtered text to the layout engine. -/
inductive PipelineStep where
  | emptyContentError : PipelineStep
  | layout : Str → PipelineStep
deriving DecidableEq

/-- Translation of the module-level guard: `if not text.strip(): st.error(...)`
`else: ... filter_stopwords ... WordCloud(...).generate(filtered_text) ...`.
Word-cloud generation, frequency summarization and export all live in the
`else` branch, so they are reached only through `PipelineStep.layout`. -/
def pipeline_after_extract (text : Str) (additional : List Str) : PipelineStep :=
  if strip text = [] then .emptyContentError
  else .layout (filter_stopwords text additional)

/-- C7: the pipeline surfaces the empty-content error exactly when the
extracted text is empty or entirely whitespace, and in that case it halts
before the layout engine (no `layout` step); in particular the empty string
always triggers the error. -/
theorem empty_content_guard (text : Str) (additional : List Str) :
    (pipeline_after_extract text additional = .emptyContentError ↔
      ∀ c ∈ text, isWS c = true) ∧
    pipeline_after_extract [] additional = .emptyContentError ∧
    (∀ f : Str, pipeline_after_extract text additional = .layout f →
        ¬ ∀ c ∈ text, isWS c = true) := by
  refine ⟨?_, by rfl, ?_⟩
  · unfold pipeline_after_extract
    by_cases h : strip text = []
    · simp only [h, if_true, true_iff]
      exact (strip_eq_nil_iff text).mp h
    · simp only [h, if_false]
      constructor
      · intro hcontra; cases hcontra
      · intro hws
        exact absurd ((strip_eq_nil_iff text).mpr hws) h
  · intro f hf hws
    unfold pipeline_after_extract at hf
    rw [(strip_eq_nil_iff text).mpr hws] at hf
    simp at hf

/-- Modelled from the pandas type inference used by `pd.read_csv`
(simplified): a cell is numeric when it is an optionally signed decimal
numeral.  A column receives a numeric dtype when every cell is numeric and
dtype `object` (textual) otherwise, which is what
`df.select_dtypes(include=['object'])` keys on. -/
def isNumericCell (s : Str) : Bool :=
  let t := match s with
    | '-' :: r => r
    | _ => s
  let ip := t.takeWhile Char.isDigit
  let rest := t.dropWhile Char.isDigit
  match rest with
  | [] => decide (ip ≠ [])
  | '.' :: fp => fp.all Char.isDigit && (decide (ip ≠ []) || decide (fp ≠ []))
  | _ => false

/-- The textual (dtype `object`) columns of the parsed table, in original
column order; `rows` are the data rows below the header. -/
def textColumns (rows : List (List Str)) : List (List Str) :=
  rows.transpose.filter (fun col => !(col.all isNumericCell))

/-- Translation of `read_csv` (src/word_cloud.py lines 28-37), successful
branch: `' '.join(df[col].astype(str).str.cat(sep=' ') for col in
text_columns)` — for each textual column, its cells joined by spaces, the
columns then joined by spaces (column-major order). -/
def read_csv (rows : List (List Str)) : Str :=
  joinSpace ((textColumns rows).map joinSpace)

/-- Stated from the spec's words, for comparison with `read_csv`: every cell
of every non-numeric column in row-major order, joined by single spaces. -/
def read_csv_rowMajor (rows : List (List Str)) : Str :=
  joinSpace ((textColumns rows).transpose.flatten)

/-- Joining a concatenation of two nonempty token lists splits into the two
joins around a space. -/
theorem joinSpace_append (A B : List Str) (hA : A ≠ []) (hB : B ≠ []) :
    joinSpace (A ++ B) = joinSpace A ++ ' ' :: joinSpace B := by
  induction A with
  | nil => exact absurd rfl hA
  | cons t A' ih =>
    cases A' with
    | nil =>
      cases B with
      | nil => exact absurd rfl hB
      | cons b B' => simp [joinSpace]
    | cons u A'' =>
      have ihh := ih (by simp)
      show t ++ ' ' :: joinSpace ((u :: A'') ++ B)
          = (t ++ ' ' :: joinSpace (u :: A'')) ++ ' ' :: joinSpace B
      rw [ihh]
      simp

/-- Space-joining the per-block joins of nonempty blocks equals space-joining
the flattened cell list. -/
theorem joinSpace_flatten (L : List (List Str)) (h : ∀ l ∈ L, l ≠ []) :
    joinSpace (L.map joinSpace) = joinSpace L.flatten := by
  induction L with
  | nil => rfl
  | cons A L' ih =>
    cases L' with
    | nil => simp [joinSpace]
    | cons B L'' =>
      have hA : A ≠ [] := h A (List.mem_cons_self _ _)
      have hB : B ≠ [] := h B (by simp)
      have hjoin : (B :: L'').flatten ≠ [] := by
        cases B with
        | nil => exact absurd rfl hB
        | cons x xs => simp
      have ihh := ih (fun l hl => h l (List.mem_cons_of_mem _ hl))
      simp only [List.map_cons, List.flatten_cons]
      have hmapne : joinSpace B :: L''.map joinSpace ≠ [] := by simp
      calc joinSpace (joinSpace A :: (joinSpace B :: L''.map joinSpace))
          = joinSpace ([joinSpace A] ++ (joinSpace B :: L''.map joinSpace)) := rfl
        _ = joinSpace A ++ ' ' :: joinSpace (joinSpace B :: L''.map joinSpace) := by
            rw [joinSpace_append [joinSpace A] _ (by simp) hmapne]; rfl
        _ = joinSpace A ++ ' ' :: joinSpace (B :: L'').flatten := by
            rw [show joinSpace B :: L''.map joinSpace = (B :: L'').map joinSpace from rfl, ihh]
        _ = joinSpace (A ++ (B :: L'').flatten) := (joinSpace_append A _ hA hjoin).symm

/-- C2 counterexample: on the 2x2 all-text table `[[a, b], [c, d]]` the code
emits the cells in column-major order `"a c b d"`, not the row-major
`"a b c d"` the claim requires. -/
theorem read_csv_order_cex :
    read_csv [["a".data, "b".data], ["c".data, "d".data]] = "a c b d".data ∧
    read_csv_rowMajor [["a".data, "b".data], ["c".data, "d".data]] = "a b c d".data ∧
    "a c b d".data ≠ "a b c d".data :=
  ⟨by decide, by decide, by decide⟩

/-- C2 amended: for every parsed table, `read_csv` returns every cell of
every non-numeric (textual) column and nothing else, joined by single
spaces, in COLUMN-major order: all cells of the first textual column (in row
order) precede all cells of the next textual column.  Numeric-only columns
are excluded by `textColumns`.  Stated under the assumption that the textual
columns are nonempty and their cells are nonempty and whitespace-free, so
that cells and tokens correspond. -/
theorem read_csv_column_major (rows : List (List Str))
    (h : ∀ col ∈ textColumns rows,
      col ≠ [] ∧ ∀ cell ∈ col, cell ≠ [] ∧ ∀ c ∈ cell, isWS c = false) :
    read_csv rows = joinSpace ((textColumns rows).flatten) ∧
    tokenize (read_csv rows) = (textColumns rows).flatten := by
  have hcols : ∀ col ∈ textColumns rows, col ≠ [] := fun col hc => (h col hc).1
  have hflat : read_csv rows = joinSpace ((textColumns rows).flatten) :=
    joinSpace_flatten _ hcols
  refine ⟨hflat, ?_⟩
  rw [hflat]
  apply tokenize_joinSpace
  intro t ht
  obtain ⟨col, hcol, htcol⟩ := List.mem_flatten.mp ht
  exact (h col hcol).2 t htcol

/-- Witness for `read_csv_column_major` on the table `[[a, 1], [c, 2]]`:
only the first column is textual, and the output is its cells `"a c"` in
column-major order. -/
theorem read_csv_column_major_witness :
    read_csv [["a".data, "1".data], ["c".data, "2".data]]
      = joinSpace ((textColumns [["a".data, "1".data], ["c".data, "2".data]]).flatten) ∧
    tokenize (read_csv [["a".data, "1".data], ["c".data, "2".data]])
      = (textColumns [["a".data, "1".data], ["c".data, "2".data]]).flatten :=
  read_csv_column_major _ (by decide)

/-- A row of the frequency table: word and weight (the weights coming back
from the layout engine, modelled as rationals). -/
abbrev WEntry := Str × ℚ

/-- Key order used by `freq_df.sort_values('Frequency', ...)`: compare rows
by weight. -/
def wle (a b : WEntry) : Prop := a.2 ≤ b.2

instance : DecidableRel wle := fun a b => inferInstanceAs (Decidable (a.2 ≤ b.2))

instance : IsTotal WEntry wle := ⟨fun a b => le_total a.2 b.2⟩

instance : IsTrans WEntry wle := ⟨fun _ _ _ h1 h2 => le_trans h1 h2⟩

/-- Modelled from pandas `DataFrame.sort_values('Frequency', ascending=False)`
(line 133): pandas `nargsort` with `ascending=False` first reverses the
values and their indices (`non_nans = non_nans[::-1]`,
`non_nan_idx = non_nan_idx[::-1]`), argsorts the reversed values ascending,
and finally reverses the resulting indexer (`indexer = indexer[::-1]`); this
double reversal makes the descending sort tie-stable when the underlying
argsort is stable.  The underlying numpy argsort is modelled as the stable
insertion sort (exact below numpy's small-array insertion-sort threshold). -/
def sort_values (l : List WEntry) : List WEntry :=
  (l.reverse.insertionSort wle).reverse

/-- Inserting a row into a list moves rows of its weight class together:
filtering any weight class through `orderedInsert` keeps the inserted row in
front of the class members already present when weights match. -/
theorem filter_orderedInsert_weight (w : ℚ) (x : WEntry) (s : List WEntry) :
    (s.orderedInsert wle x).filter (fun e => decide (e.2 = w))
      = if x.2 = w then x :: s.filter (fun e => decide (e.2 = w))
        else s.filter (fun e => decide (e.2 = w)) := by
  induction s with
  | nil =>
    by_cases hx : x.2 = w <;> simp [List.orderedInsert, List.filter_cons, hx]
  | cons y ys ih =>
    show (if wle x y then x :: y :: ys else (ys.orderedInsert wle x).cons y).filter _ = _
    by_cases hxy : wle x y
    · by_cases hx : x.2 = w <;> simp [hxy, List.filter_cons, hx]
    · have hlt : y.2 < x.2 := lt_of_not_le hxy
      by_cases hx : x.2 = w
      · have hy : ¬ (y.2 = w) := by rw [← hx]; exact ne_of_lt hlt
        simp [hxy, List.filter_cons, hx, hy, ih]
      · by_cases hy : y.2 = w <;> simp [hxy, List.filter_cons, hx, hy, ih]

/-- The stable ascending sort preserves each weight class in input order. -/
theorem filter_insertionSort_weight (w : ℚ) (l : List WEntry) :
    (l.insertionSort wle).filter (fun e => decide (e.2 = w))
      = l.filter (fun e => decide (e.2 = w)) := by
  induction l with
  | nil => rfl
  | cons x xs ih =>
    show ((xs.insertionSort wle).orderedInsert wle x).filter _ = _
    rw [filter_orderedInsert_weight]
    by_cases hx : x.2 = w <;> simp [hx, List.filter_cons, ih]

/-- Characters that trigger quoting under the csv module's minimal quoting,
as used by pandas `to_csv`. -/
def csvSpecial (c : Char) : Bool := c = ',' || c = '"' || c = '\n' || c = '\r'

/-- Does this field need to be quoted? -/
def needsQuote (f : Str) : Bool := f.any csvSpecial

/-- Double every double-quote character (CSV escaping inside a quoted field). -/
def escQuotes : Str → Str
  | [] => []
  | c :: cs => if c = '"' then '"' :: '"' :: escQuotes cs else c :: escQuotes cs

/-- CSV field encoding with minimal quoting. -/
def encodeField (f : Str) : Str :=
  if needsQuote f then '"' :: (escQuotes f ++ ['"']) else f

/-- One CSV row: comma-separated encoded fields, terminating newline. -/
def encodeRow : List Str → Str
  | [] => ['\n']
  | [f] => encodeField f ++ ['\n']
  | f :: fs => encodeField f ++ ',' :: encodeRow fs

/-- Modelled from pandas `DataFrame.to_csv(index=False)` (line 57): header
row then data rows, newline terminated, minimal quoting. -/
def to_csv (rows : List (List Str)) : Str := (rows.map encodeRow).flatten

/-- Little-endian decimal digits of a natural number. -/
def natDigitsRev : Nat → Str
  | 0 => []
  | n + 1 => Nat.digitChar ((n + 1) % 10) :: natDigitsRev ((n + 1) / 10)
decreasing_by exact Nat.div_lt_self (Nat.succ_pos n) (by norm_num)

/-- Python `str(n)` for a natural number. -/
def renderNat (n : Nat) : Str := if n = 0 then ['0'] else (natDigitsRev n).reverse

/-- Numeric value of a decimal digit character. -/
def digitVal (c : Char) : Nat := c.toNat - '0'.toNat

/-- Value of a little-endian digit string. -/
def valRev : Str → Nat
  | [] => 0
  | c :: cs => digitVal c + 10 * valRev cs

/-- Decimal parse of a (big-endian) digit string. -/
def parseNat (s : Str) : Nat := valRev s.reverse

/-- Modelled from the spec: a standard CSV reader (the spec's `decode`,
inverse of the export encoding; the repository itself ships no decoder).
State machine over the input: `inQ` says whether we are inside a quoted
field, `field` and `row` accumulate the current field (reversed) and the
current row (reversed), `rows` the finished rows (reversed). -/
def csvAux : Bool → Str → Str → List Str → List (List Str) → List (List Str)
  | _, [], field, row, rows =>
    if field = [] ∧ row = [] then rows.reverse
    else ((field.reverse :: row).reverse :: rows).reverse
  | true, c :: rest, field, row, rows =>
    if c = '"' then
      match rest with
      | [] =>
        if field = [] ∧ row = [] then rows.reverse
        else ((field.reverse :: row).reverse :: rows).reverse
      | d :: rest' =>
        if d = '"' then csvAux true rest' ('"' :: field) row rows
        else csvAux false (d :: rest') field row rows
    else csvAux true rest (c :: field) row rows
  | false, c :: rest, field, row, rows =>
    if c = ',' then csvAux false rest [] (field.reverse :: row) rows
    else if c = '\n' then csvAux false rest [] [] ((field.reverse :: row).reverse :: rows)
    else if c = '"' then csvAux true rest field row rows
    else csvAux false rest (c :: field) row rows

/-- Parse a CSV text into its rows of fields. -/
def parseCSV (s : Str) : List (List Str) := csvAux false s [] [] []

/-- Digit characters decode back to their digit value. -/
theorem digitVal_digitChar : ∀ d < 10, digitVal (Nat.digitChar d) = d := by decide

/-- The little-endian digit expansion evaluates back to the number. -/
theorem valRev_natDigitsRev (n : Nat) : valRev (natDigitsRev n) = n := by
  induction n using Nat.strong_induction_on with
  | _ n ih =>
    cases n with
    | zero => simp [natDigitsRev, valRev]
    | succ m =>
      rw [natDigitsRev, valRev]
      rw [ih ((m + 1) / 10) (Nat.div_lt_self (Nat.succ_pos m) (by norm_num))]
      rw [digitVal_digitChar _ (Nat.mod_lt _ (by norm_num))]
      omega

/-- Decimal rendering of a natural parses back to it. -/
theorem parseNat_renderNat (n : Nat) : parseNat (renderNat n) = n := by
  by_cases h : n = 0
  · subst h; rfl
  · simp only [renderNat, h, if_false, parseNat, List.reverse_reverse]
    exact valRev_natDigitsRev n

/-- A non-special character is not a comma, quote, or newline. -/
theorem csvSpecial_false {c : Char} (h : csvSpecial c = false) :
    c ≠ ',' ∧ c ≠ '"' ∧ c ≠ '\n' := by
  refine ⟨?_, ?_, ?_⟩ <;> intro hh <;> subst hh <;> simp [csvSpecial] at h

/-- Step: unquoted comma ends the current field. -/
theorem csvAux_comma (rest field : Str) (row : List Str) (rows : List (List Str)) :
    csvAux false (',' :: rest) field row rows
      = csvAux false rest [] (field.reverse :: row) rows := by
  simp [csvAux]

/-- Step: unquoted newline ends the current row. -/
theorem csvAux_newline (rest field : Str) (row : List Str) (rows : List (List Str)) :
    csvAux false ('\n' :: rest) field row rows
      = csvAux false rest [] [] ((field.reverse :: row).reverse :: rows) := by
  simp [csvAux]

/-- Step: unquoted quote opens a quoted field. -/
theorem csvAux_openQ (rest field : Str) (row : List Str) (rows : List (List Str)) :
    csvAux false ('"' :: rest) field row rows = csvAux true rest field row rows := by
  simp [csvAux]

/-- Step: an ordinary unquoted character joins the current field. -/
theorem csvAux_plain {c : Char} (hc1 : c ≠ ',') (hc3 : c ≠ '\n') (hc2 : c ≠ '"')
    (rest field : Str) (row : List Str) (rows : List (List Str)) :
    csvAux false (c :: rest) field row rows = csvAux false rest (c :: field) row rows := by
  simp [csvAux, hc1, hc2, hc3]

/-- Step: a doubled quote inside a quoted field is a literal quote. -/
theorem csvAux_q_dquote (rest field : Str) (row : List Str) (rows : List (List Str)) :
    csvAux true ('"' :: '"' :: rest) field row rows
      = csvAux true rest ('"' :: field) row rows := by
  simp [csvAux]

/-- Step: a lone closing quote leaves the quoted state. -/
theorem csvAux_q_close {d : Char} (hd : d ≠ '"') (rest field : Str) (row : List Str)
    (rows : List (List Str)) :
    csvAux true ('"' :: d :: rest) field row rows
      = csvAux false (d :: rest) field row rows := by
  rw [csvAux]
  simp [hd]

/-- Step: an ordinary character inside a quoted field joins the field. -/
theorem csvAux_q_plain {c : Char} (hc : c ≠ '"') (rest field : Str) (row : List Str)
    (rows : List (List Str)) :
    csvAux true (c :: rest) field row rows = csvAux true rest (c :: field) row rows := by
  cases rest with
  | nil => simp [csvAux, hc]
  | cons d rest' => simp [csvAux, hc]

/-- Scanning a run of non-special characters in unquoted state accumulates
them into the current field. -/
theorem csvAux_scan_unquoted (f : Str) (hf : ∀ c ∈ f, csvSpecial c = false) :
    ∀ (rest acc : Str) (row : List Str) (rows : List (List Str)),
      csvAux false (f ++ rest) acc row rows
        = csvAux false rest (f.reverse ++ acc) row rows := by
  induction f with
  | nil => intro rest acc row rows; simp
  | cons c f' ih =>
    intro rest acc row rows
    obtain ⟨hc1, hc2, hc3⟩ := csvSpecial_false (hf c (List.mem_cons_self _ _))
    have hf' := fun d hd => hf d (List.mem_cons_of_mem _ hd)
    show csvAux false (c :: (f' ++ rest)) acc row rows = _
    rw [csvAux_plain hc1 hc3 hc2, ih hf' rest (c :: acc)]
    simp

/-- Scanning the quoted encoding of a field in quoted state accumulates the
field and stops at the closing quote (followed by a non-quote). -/
theorem csvAux_scan_quoted (f : Str) :
    ∀ (d : Char) (rest' acc : Str) (row : List Str) (rows : List (List Str)),
      d ≠ '"' →
      csvAux true (escQuotes f ++ '"' :: d :: rest') acc row rows
        = csvAux false (d :: rest') (f.reverse ++ acc) row rows := by
  induction f with
  | nil =>
    intro d rest' acc row rows hd
    show csvAux true ('"' :: d :: rest') acc row rows = _
    rw [csvAux_q_close hd]
    simp
  | cons c f' ih =>
    intro d rest' acc row rows hd
    by_cases hc : c = '"'
    · subst hc
      have hesc : escQuotes ('"' :: f') ++ '"' :: d :: rest'
          = '"' :: '"' :: (escQuotes f' ++ '"' :: d :: rest') := by
        simp [escQuotes]
      rw [hesc, csvAux_q_dquote, ih d rest' ('"' :: acc) row rows hd]
      simp
    · have hesc : escQuotes (c :: f') ++ '"' :: d :: rest'
          = c :: (escQuotes f' ++ '"' :: d :: rest') := by
        simp [escQuotes, hc]
      rw [hesc, csvAux_q_plain hc, ih d rest' (c :: acc) row rows hd]
      simp

/-- Scanning one encoded field from unquoted state with empty field
accumulator recovers the field, stopping at the following separator. -/
theorem csvAux_field (f : Str) (d : Char) (rest' : Str) (row : List Str)
    (rows : List (List Str)) (hd : d = ',' ∨ d = '\n') :
    csvAux false (encodeField f ++ d :: rest') [] row rows
      = csvAux false (d :: rest') f.reverse row rows := by
  have hdq : d ≠ '"' := by rcases hd with rfl | rfl <;> decide
  by_cases hq : needsQuote f
  · have henc : encodeField f ++ d :: rest'
        = '"' :: (escQuotes f ++ '"' :: d :: rest') := by
      simp [encodeField, hq]
    rw [henc, csvAux_openQ, csvAux_scan_quoted f d rest' [] row rows hdq]
    simp
  · have hall : ∀ c ∈ f, csvSpecial c = false := by
      intro c hc
      by_contra hcon
      exact hq (List.any_eq_true.mpr ⟨c, hc, by simpa using hcon⟩)
    have henc : encodeField f ++ d :: rest' = f ++ d :: rest' := by
      simp [encodeField, hq]
    rw [henc, csvAux_scan_unquoted f hall (d :: rest') [] row rows]
    simp

/-- Scanning one encoded row appends that row to the finished-rows
accumulator (on top of any fields already in the row accumulator). -/
theorem csvAux_row (f : Str) (fs : List Str) :
    ∀ (rest : Str) (rowacc : List Str) (rows : List (List Str)),
      csvAux false (encodeRow (f :: fs) ++ rest) [] rowacc rows
        = csvAux false rest [] [] ((rowacc.reverse ++ f :: fs) :: rows) := by
  induction fs generalizing f with
  | nil =>
    intro rest rowacc rows
    have henc : encodeRow [f] ++ rest = encodeField f ++ '\n' :: rest := by
      simp [encodeRow]
    rw [henc, csvAux_field f '\n' rest rowacc rows (Or.inr rfl), csvAux_newline]
    simp
  | cons g gs ih =>
    intro rest rowacc rows
    have henc : encodeRow (f :: g :: gs) ++ rest
        = encodeField f ++ ',' :: (encodeRow (g :: gs) ++ rest) := by
      simp [encodeRow]
    rw [henc, csvAux_field f ',' (encodeRow (g :: gs) ++ rest) rowacc rows (Or.inl rfl),
      csvAux_comma, List.reverse_reverse, ih g rest (f :: rowacc) rows]
    simp

/-- Decoding inverts encoding for any table of nonempty rows. -/
theorem parseCSV_to_csv (rows : List (List Str)) (h : ∀ r ∈ rows, r ≠ []) :
    parseCSV (to_csv rows) = rows := by
  suffices hgen : ∀ R : List (List Str), (∀ r ∈ R, r ≠ []) → ∀ acc,
      csvAux false ((R.map encodeRow).flatten) [] [] acc = acc.reverse ++ R by
    simpa [parseCSV, to_csv] using hgen rows h []
  intro R
  induction R with
  | nil => intro _ acc; simp [csvAux]
  | cons r R' ih =>
    intro hR acc
    obtain ⟨f, fs, rfl⟩ : ∃ f fs, r = f :: fs := by
      cases r with
      | nil => exact absurd rfl (hR [] (List.mem_cons_self _ _))
      | cons f fs => exact ⟨f, fs, rfl⟩
    simp only [List.map_cons, List.flatten_cons]
    rw [csvAux_row f fs _ [] acc]
    simp only [List.reverse_nil, List.nil_append]
    rw [ih (fun x hx => hR x (List.mem_cons_of_mem _ hx)) ((f :: fs) :: acc)]
    simp

/-- Translation of the frequency-table payload of `get_df_download_link`
(lines 56-60): `freq_df.to_csv(index=False)` with header `Word,Frequency`
and one row per (word, weight) entry, the weight written in decimal. -/
def get_df_csv (R : List (Str × Nat)) : Str :=
  to_csv (["Word".data, "Frequency".data] :: R.map (fun p => [p.1, renderNat p.2]))

/-- Modelled from the spec: read one decoded CSV data row back as a
(word, weight) pair. -/
def rowToEntry : List Str → Option (Str × Nat)
  | [w, f] => some (w, parseNat f)
  | _ => none

/-- Modelled from the spec: read all decoded CSV data rows back as
(word, weight) pairs. -/
def decodeRows : List (List Str) → Option (List (Str × Nat))
  | [] => some []
  | r :: rs =>
    match rowToEntry r, decodeRows rs with
    | some e, some es => some (e :: es)
    | _, _ => none

/-- Modelled from the spec: the full `decode` of the table export payload —
parse the CSV text, drop the header row, read the data rows as pairs. -/
def decodeTable (s : Str) : Option (List (Str × Nat)) :=
  match parseCSV s with
  | [] => none
  | _ :: dataRows => decodeRows dataRows

/-- Data rows built from a report decode back to exactly that report. -/
theorem decodeRows_map (R : List (Str × Nat)) :
    decodeRows (R.map (fun p => [p.1, renderNat p.2])) = some R := by
  induction R with
  | nil => rfl
  | cons p R' ih =>
    show decodeRows ([p.1, renderNat p.2] :: R'.map _) = some (p :: R')
    simp only [decodeRows, rowToEntry, ih, parseNat_renderNat]

/-- C6: the table export round-trips — decoding the CSV payload produced for
any frequency report reproduces the original (word, weight) pairs in the
original order, for arbitrary words (commas, quotes and newlines included,
which the encoder quotes and escapes). -/
theorem table_export_roundTrip (R : List (Str × Nat)) :
    decodeTable (get_df_csv R) = some R := by
  have hrows : ∀ r ∈ ["Word".data, "Frequency".data]
      :: R.map (fun p => [p.1, renderNat p.2]), r ≠ [] := by
    intro r hr
    rcases List.mem_cons.mp hr with rfl | hr
    · simp
    · obtain ⟨p, _, rfl⟩ := List.mem_map.mp hr
      simp
  have hp := parseCSV_to_csv _ hrows
  simp only [decodeTable, get_df_csv, hp]
  exact decodeRows_map R

/-- Outcome of one extractor call, as seen at the request boundary: either
extracted text, or an exception propagating out of the extractor. -/
inductive ExtractOutcome where
  | ok : Str → ExtractOutcome
  | raised : Str → ExtractOutcome
deriving DecidableEq

/-- Translation of `read_text` (lines 12-13): decode the bytes; a decoding
failure of the underlying call propagates (the function has no try/except). -/
def read_text_result : Except Str Str → ExtractOutcome
  | .ok s => .ok s
  | .error e => .raised e

/-- Translation of `read_doc` (lines 15-17): join every paragraph text with
single spaces; a failure of the docx library propagates (no try/except). -/
def read_doc_result : Except Str (List Str) → ExtractOutcome
  | .ok paras => .ok (joinSpace paras)
  | .error e => .raised e

/-- Translation of `read_pdf` (lines 19-26): join the nonempty page texts
with single spaces, skipping pages yielding no text; a failure of the pdf
library propagates (no try/except). -/
def read_pdf_result : Except Str (List Str) → ExtractOutcome
  | .ok pages => .ok (joinSpace (pages.filter (fun p => !p.isEmpty)))
  | .error e => .raised e

/-- Translation of `read_csv` (lines 28-37) with its try/except: a pandas
parse failure is caught at the extractor boundary, `st.error` is shown
(second component `true`) and the empty string is returned instead of the
exception propagating. -/
def read_csv_result : Except Str (List (List Str)) → ExtractOutcome × Bool
  | .ok rows => (.ok (read_csv rows), false)
  | .error _ => (.ok [], true)

/-- C8: on any parse failure the tabular extractor reports a visible error
and returns the empty string rather than raising, while the plain-text,
word-processor and pdf extractors all let the failure propagate — no other
extractor path catches parse failures. -/
theorem csv_parse_failure_caught (e : Str) :
    read_csv_result (.error e) = (.ok [], true) ∧
    (∀ rows, read_csv_result (.ok rows) = (.ok (read_csv rows), false)) ∧
    read_text_result (.error e) = .raised e ∧
    read_doc_result (.error e) = .raised e ∧
    read_pdf_result (.error e) = .raised e :=
  ⟨rfl, fun _ => rfl, rfl, rfl, rfl⟩

/-- The base64 alphabet. -/
def b64chars : Str :=
  "ABCDEFGHIJKLMNOPQRSTUVWXYZabcdefghijklmnopqrstuvwxyz0123456789+/".data

/-- Character at a base64 index. -/
def b64char (i : Nat) : Char := b64chars.getD i 'A'

/-- Standard base64 (RFC 4648) of a byte list, modelling `base64.b64encode`. -/
def b64encode : List Nat → Str
  | [] => []
  | [a] => [b64char (a / 4), b64char (a % 4 * 16), '=', '=']
  | [a, b] => [b64char (a / 4), b64char (a % 4 * 16 + b / 16), b64char (b % 16 * 4), '=']
  | a :: b :: c :: rest =>
    b64char (a / 4) :: b64char (a % 4 * 16 + b / 16) :: b64char (b % 16 * 4 + c / 64)
      :: b64char (c % 64) :: b64encode rest

/-- Translation of `get_plot_download_link` (lines 47-53): an anchor whose
href is a data URI tagged `file/png` carrying the base64 of the rendered
PNG bytes, with the filename in the download attribute. -/
def get_plot_download_link (pngBytes : List Nat) (filename : Str) : Str :=
  "<a href=\"data:file/png;base64,".data ++ b64encode pngBytes
    ++ "\" download=\"".data ++ filename ++ "\">Download Plot</a>".data

/-- Translation of `get_df_download_link` (lines 56-60): an anchor whose
href is a data URI tagged `file/csv` carrying the base64 of the CSV bytes
of the frequency table (bytes modelled as the code points of its text). -/
def get_df_download_link (R : List (Str × Nat)) (filename : Str) : Str :=
  "<a href=\"data:file/csv;base64,".data ++ b64encode ((get_df_csv R).map Char.toNat)
    ++ "\" download=\"".data ++ filename ++ "\">Download CSV File</a>".data

/-- The type tag of the data URI inside a generated anchor: the characters
after the 14-character opening `<a href="data:` up to the next semicolon. -/
def dataUriTag (link : Str) : Str :=
  (link.drop 14).takeWhile (fun c => decide (c ≠ ';'))

/-- C9 counterexample: the image link's data URI is tagged `file/png`, not
the claimed MIME type `image/png`, and the table link's is tagged
`file/csv`, not the claimed `text/csv`. -/
theorem download_link_mime_cex :
    dataUriTag (get_plot_download_link [] ("wordcloud.png".data)) = "file/png".data ∧
    "file/png".data ≠ "image/png".data ∧
    dataUriTag (get_df_download_link [] ("word_frequencies.csv".data)) = "file/csv".data ∧
    "file/csv".data ≠ "text/csv".data :=
  ⟨by decide, by decide, by decide, by decide⟩

/-- C9 amended: every image export link is a data URI tagged `file/png`
(not the standard MIME name) holding the base64 image bytes with the
filename in the download attribute, and every table export link is a data
URI tagged `file/csv` (not `text/csv`) holding the base64 CSV bytes. -/
theorem download_link_tags (pngBytes : List Nat) (fname : Str)
    (R : List (Str × Nat)) (fname2 : Str) :
    dataUriTag (get_plot_download_link pngBytes fname) = "file/png".data ∧
    dataUriTag (get_df_download_link R fname2) = "file/csv".data ∧
    get_plot_download_link pngBytes fname
      = "<a href=\"data:file/png;base64,".data ++ b64encode pngBytes
        ++ "\" download=\"".data ++ fname ++ "\">Download Plot</a>".data ∧
    get_df_download_link R fname2
      = "<a href=\"data:file/csv;base64,".data ++ b64encode ((get_df_csv R).map Char.toNat)
        ++ "\" download=\"".data ++ fname2 ++ "\">Download CSV File</a>".data :=
  ⟨rfl, rfl, rfl, rfl⟩

/-- The word-processor MIME tag from line 91. -/
def MIME_DOCX : Str :=
  "application/vnd.openxmlformats-officedocument.wordprocessingml.document".data

/-- Where the module-level dispatch routes an upload. -/
inductive Route where
  | txt | docx | pdf | csv | unsupported
deriving DecidableEq

/-- Translation of the module-level file-type dispatch (lines 86-99): the
declared MIME type is tried first; the tabular branch also accepts any
filename ending in `.csv`; otherwise a visible unsupported-file-type error
stops the request. -/
def dispatch (mime name : Str) : Route :=
  if mime = "text/plain".data then .txt
  else if mime = MIME_DOCX then .docx
  else if mime = "application/pdf".data then .pdf
  else if mime = "text/csv".data ∨ (".csv".data.isSuffixOf name) = true then .csv
  else .unsupported

/-- C10: when the declared MIME type matches none of the four recognized
tags, the upload is still routed to the tabular extractor whenever its
filename ends in `.csv`; the unsupported-file-type error is raised only
when additionally the filename lacks the `.csv` suffix. -/
theorem csv_suffix_dispatch (mime name : Str)
    (h1 : mime ≠ "text/plain".data) (h2 : mime ≠ MIME_DOCX)
    (h3 : mime ≠ "application/pdf".data) (h4 : mime ≠ "text/csv".data) :
    ((".csv".data.isSuffixOf name) = true → dispatch mime name = .csv) ∧
    ((".csv".data.isSuffixOf name) = false → dispatch mime name = .unsupported) := by
  constructor
  · intro hs
    simp [dispatch, h1, h2, h3, h4, hs]
  · intro hs
    simp [dispatch, h1, h2, h3, h4, hs]

/-- Witness for `csv_suffix_dispatch`: an unrecognized MIME type with a
`.csv` filename routes to the tabular extractor, and with a non-`.csv`
filename stops with the unsupported error. -/
theorem csv_suffix_dispatch_witness :
    dispatch ("application/octet-stream".data) ("data.csv".data) = .csv ∧
    dispatch ("application/octet-stream".data) ("data.txt".data) = .unsupported :=
  ⟨(csv_suffix_dispatch ("application/octet-stream".data) ("data.csv".data)
      (by decide) (by decide) (by decide) (by decide)).1 (by decide),
   (csv_suffix_dispatch ("application/octet-stream".data) ("data.txt".data)
      (by decide) (by decide) (by decide) (by decide)).2 (by decide)⟩
